import Mathlib

/-!
Verification of the bioptim integrator core (`bioptim/dynamics/integrator.py`).

The CasADi-based integrators build symbolic expressions over matrices of
reals.  We shallowly embed the expression-building code over exact rationals:
a vector is a `List ℚ`, a matrix is a list of its columns, and the external
dynamics function (supplied by the model, outside this subsystem) is an
abstract parameter.  Python exceptions raised while the expression graph is
being built are embedded as `Except` errors.
-/

set_option autoImplicit false

namespace Bioptim

/-- A column vector of rationals (a CasADi `nx x 1` matrix). -/
abbrev Vec := List ℚ

/-- A matrix represented as the list of its columns (CasADi `horzcat`). -/
abbrev Mat := List Vec

/-- Elementwise addition of two vectors. -/
def vadd (x y : Vec) : Vec := List.zipWith (· + ·) x y

/-- Elementwise subtraction of two vectors. -/
def vsub (x y : Vec) : Vec := List.zipWith (· - ·) x y

/-- Scalar multiplication of a vector. -/
def smul (c : ℚ) (x : Vec) : Vec := x.map (fun q => c * q)

/-- Elementwise division of a vector by a scalar. -/
def vdivs (x : Vec) (c : ℚ) : Vec := x.map (fun q => q / c)

/-- Sum of a list of vectors.  Python accumulates starting from the scalar
`0`, which broadcasts against the first summand, so the empty sum is the
empty vector and otherwise we left-fold from the first element. -/
def vsum : List Vec → Vec
  | [] => []
  | x :: xs => xs.foldl vadd x

/-- Column `i` of a matrix (`m[:, i]`). -/
def col (m : Mat) (i : Nat) : Vec := m.getD i []

/-- The number of rows of a matrix (`m.shape[0]`). -/
def matRows (m : Mat) : Nat := (m.headD []).length

/-- Members of `bioptim.misc.enums.ControlType` used by the integrators.
`noControl` stands for the remaining enum members (e.g. `NONE`), which reach
the `else` branch of `Integrator.get_u`. -/
inductive ControlType where
  | constant
  | constantWithLastNode
  | linearContinuous
  | noControl
  deriving DecidableEq

/-- Members of `bioptim.misc.enums.DefectType` used by `COLLOCATION.dxdt`.
`notApplicable` stands for any member other than `EXPLICIT`/`IMPLICIT`,
which reaches the `else` branch raising `ValueError`. -/
inductive DefectType where
  | explicit
  | implicit
  | notApplicable
  deriving DecidableEq

/-- Python exceptions raised while an integrator expression is built or
evaluated. -/
inductive IntegratorError where
  /-- The `RuntimeError` in `Integrator.get_u` (integrator.py line 179). -/
  | controlTypeNotImplemented
  /-- The `NotImplementedError` in `COLLOCATION.get_u` (line 601):
  the spec calls this the `UnsupportedControlPolicy` error. -/
  | collocationControlTypeNotImplemented
  /-- The `ValueError` in `COLLOCATION.dxdt` (line 641). -/
  | unknownDefectsType
  /-- A raising root-finder failure (never produced with
  `error_on_fail = False`). -/
  | rootfinderFailed
  deriving DecidableEq

/-- The external dynamics function `fun`, with the `ode_idx` column already
selected: `f t h x u p a` embeds `fun(vertcat(t, h), x, u, p, a)[:, ode_idx]`.
It is supplied by the model and is an arbitrary parameter here. -/
abbrev Dynamics := ℚ → ℚ → Vec → Mat → Vec → Mat → Vec

/-- The external implicit dynamics function `implicit_fun`:
`fImpl t h x u p a xdot` embeds `implicit_fun(vertcat(t, h), x, u, p, a, xdot)`. -/
abbrev ImplicitDynamics := ℚ → ℚ → Vec → Mat → Vec → Mat → Vec → Vec

/-- The per-integrator data used by `Integrator.get_u` and the RK /
trapezoidal derivations: quaternion count and normalization routine of the
external model, the dynamics, and the control policy. -/
structure IntegratorCtx where
  nbQuaternions : Nat
  normalize : Vec → Vec
  f : Dynamics
  controlType : ControlType

/-- Embeds `Integrator.get_u` (integrator.py lines 157-179): constant policies
return the control matrix `u` unchanged; the linear-continuous policy
returns the interpolated column; any other policy raises `RuntimeError`. -/
def integratorGetU (ct : ControlType) (tspan : ℚ × ℚ) (u : Mat) (t : ℚ) :
    Except IntegratorError Mat :=
  match ct with
  | .constant => .ok u
  | .constantWithLastNode => .ok u
  | .linearContinuous =>
      .ok [vadd (col u 0) (smul ((t - tspan.1) / tspan.2) (vsub (col u 1) (col u 0)))]
  | .noControl => .error .controlTypeNotImplemented

/-- The routine `model.normalize_state_quaternions` is applied exactly when the model
declares at least one quaternion block (`model.nb_quaternions > 0`). -/
def maybeNormalize (ctx : IntegratorCtx) (x : Vec) : Vec :=
  if 0 < ctx.nbQuaternions then ctx.normalize x else x

/-! ### Explicit fixed-step family (`RK`, integrator.py lines 210-399) -/

/-- The sub-step size `h = self.t_span_sym[1] / self._n_step`
(`RK.h` / `RK._integration_time`, lines 232-234 and 252-254). -/
def rkH (duration : ℚ) (nStep : Nat) : ℚ := duration / (nStep : ℚ)

/-- The finite-element loop of `RK.dxdt` (lines 286-298): the trajectory
columns `x[:, 0..n]`, where column 0 is the supplied initial state and
column `i ≥ 1` is `next_x` applied at time `t0 + h·(i-1)` to column `i-1`,
renormalized when the model declares quaternions.  `next` is the
scheme-specific stage formula, which may raise (through `get_u`). -/
def rkXall (ctx : IntegratorCtx) (next : ℚ → Vec → Except IntegratorError Vec)
    (t0 h : ℚ) (x0 : Vec) : Nat → Except IntegratorError (List Vec)
  | 0 => .ok [x0]
  | n + 1 =>
    match rkXall ctx next t0 h x0 n with
    | .error e => .error e
    | .ok xs =>
      match next (t0 + h * (n : ℚ)) (xs.getLastD []) with
      | .error e => .error e
      | .ok xn => .ok (xs ++ [maybeNormalize ctx xn])

/-- Embeds `RK.dxdt` (lines 280-299): returns `(x[:, -1], x)`. -/
def rkDxdt (ctx : IntegratorCtx) (next : ℚ → Vec → Except IntegratorError Vec)
    (t0 h : ℚ) (x0 : Vec) (n : Nat) : Except IntegratorError (Vec × List Vec) :=
  match rkXall ctx next t0 h x0 n with
  | .error e => .error e
  | .ok xs => .ok (xs.getLastD [], xs)

/-- Embeds `RK4.next_x` (lines 332-339): the classical 4-stage Runge-Kutta step. -/
def rk4NextX (ctx : IntegratorCtx) (tspan : ℚ × ℚ) (nStep : Nat)
    (u : Mat) (p : Vec) (a : Mat) (t0 : ℚ) (xPrev : Vec) :
    Except IntegratorError Vec :=
  let h := rkH tspan.2 nStep
  match integratorGetU ctx.controlType tspan u t0 with
  | .error e => .error e
  | .ok u1 =>
    let k1 := ctx.f t0 h xPrev u1 p a
    match integratorGetU ctx.controlType tspan u (t0 + h / 2) with
    | .error e => .error e
    | .ok u2 =>
      let k2 := ctx.f (t0 + h / 2) h (vadd xPrev (smul (h / 2) k1)) u2 p a
      match integratorGetU ctx.controlType tspan u (t0 + h / 2) with
      | .error e => .error e
      | .ok u3 =>
        let k3 := ctx.f (t0 + h / 2) h (vadd xPrev (smul (h / 2) k2)) u3 p a
        match integratorGetU ctx.controlType tspan u (t0 + h) with
        | .error e => .error e
        | .ok u4 =>
          let k4 := ctx.f (t0 + h) h (vadd xPrev (smul h k3)) u4 p a
          .ok (vadd xPrev (smul (h / 6) (vsum [k1, smul 2 k2, smul 2 k3, k4])))

/-- Embeds `RK.shape_xf` (lines 236-238): `[nx, 1]`. -/
def rkShapeXf (nx : Nat) : List Nat := [nx, 1]

/-- Embeds `RK.shape_xall` (lines 240-242): `[nx, n_step + 1]`. -/
def rkShapeXall (nx nStep : Nat) : List Nat := [nx, nStep + 1]

/-! ### Trapezoidal scheme (`TRAPEZOIDAL`, integrator.py lines 402-484) -/

/-- The fields of the `ode_opt` dict consulted by the schemes. -/
structure OdeOpt where
  numberOfFiniteElements : Nat
  controlType : ControlType
  defectsType : DefectType
  duplicateStartingPoint : Bool

/-- The integrator state produced by `TRAPEZOIDAL.__init__` that later code
reads. -/
structure TrapIntegrator where
  nStep : Nat
  controlType : ControlType
  deriving DecidableEq

/-- Embeds `TRAPEZOIDAL.__init__` (lines 410-412): `self._n_step = 1` is assigned
unconditionally; `ode_opt["number_of_finite_elements"]` is never read, no
validation is performed and no exception can be raised on this path
(the rest of `Integrator.__init__` never consults the finite-element count,
and `TRAPEZOIDAL.dxdt` calls neither `get_u` nor any raising branch). -/
def trapInit (odeOpt : OdeOpt) : Except IntegratorError TrapIntegrator :=
  .ok { nStep := 1, controlType := odeOpt.controlType }

/-- Embeds `TRAPEZOIDAL.next_x` (lines 414-427):
`x_prev + (dx + dx_next) * h / 2` with the slopes taken at both ends. -/
def trapNextX (ctx : IntegratorCtx) (t0 h : ℚ) (xPrev xNext : Vec)
    (uPrev uNext : Mat) (p : Vec) (aPrev aNext : Mat) : Vec :=
  let dx := ctx.f t0 h xPrev uPrev p aPrev
  let dxNext := ctx.f (t0 + h) h xNext uNext p aNext
  vadd xPrev (smul (h / 2) (vadd dx dxNext))

/-- Embeds `TRAPEZOIDAL.dxdt` (lines 449-484): slices the two state / control /
algebraic-state columns, recomputes the end state with `next_x`,
renormalizes it when the model declares quaternions, and returns
`(x_prev[:, 1], x_prev)`. -/
def trapDxdt (ctx : IntegratorCtx) (tspan : ℚ × ℚ) (states controls : Mat)
    (p : Vec) (a : Mat) : Vec × Mat :=
  let h := tspan.2
  let statesNext := col states 1
  let controlsPrev : Mat := [col controls 0]
  let controlsNext : Mat := [col controls 1]
  let aPrev : Mat := if a = ([] : Mat) then a else [col a 0]
  let aNext : Mat := if a = ([] : Mat) then a else [col a 1]
  let x0 := col states 0
  let x1 := trapNextX ctx tspan.1 h x0 statesNext controlsPrev controlsNext p aPrev aNext
  let x1n := maybeNormalize ctx x1
  (x1n, [x0, x1n])

/-! ### Orthogonal collocation (`COLLOCATION`, integrator.py lines 487-649)

The differentiation coefficients `_c`, the continuity coefficients `_d` and
the collocation nodes `_integration_time` are computed once at build time by
symbolic differentiation of the Lagrange basis at the CasADi-provided
Radau/Legendre points (lines 502-552); their numeric values are irrelevant to
the claims, so they are abstract fields here.  `tau 0 = 0` and `tau j` for
`j ≥ 1` are the collocation points. -/

/-- The per-collocation-integrator data. -/
structure ColCtx where
  degree : Nat
  c : Nat → Nat → ℚ
  d : Nat → ℚ
  tau : Nat → ℚ
  controlType : ControlType
  defectsType : DefectType
  duplicateStartingPoint : Bool
  f : Dynamics
  fImpl : ImplicitDynamics

/-- Embeds `COLLOCATION._x_sym_modified` (lines 554-556): all per-node state
symbols, with node 1 (the duplicated starting point) dropped unless the
duplicate-starting-point flag is set. -/
def colXSymModified (dup : Bool) (xsym : List Vec) : List Vec :=
  if dup then xsym else xsym.tail

/-- Embeds `COLLOCATION.shape_xf` (lines 570-572): `[rows of _x_sym_modified, degree + 1]`. -/
def colShapeXf (dup : Bool) (xsym : List Vec) (degree : Nat) : List Nat :=
  [matRows (colXSymModified dup xsym), degree + 1]

/-- Embeds `COLLOCATION.shape_xall` (lines 574-576): `[rows of _x_sym_modified, degree + 2]`. -/
def colShapeXall (dup : Bool) (xsym : List Vec) (degree : Nat) : List Nat :=
  [matRows (colXSymModified dup xsym), degree + 2]

/-- Embeds `COLLOCATION.get_u` (lines 582-601): constant policies defer to
`Integrator.get_u`; anything else raises `NotImplementedError`. -/
def colGetU (ct : ControlType) (tspan : ℚ × ℚ) (u : Mat) (t : ℚ) :
    Except IntegratorError Mat :=
  match ct with
  | .constant => integratorGetU ct tspan u t
  | .constantWithLastNode => integratorGetU ct tspan u t
  | _ => .error .collocationControlTypeNotImplemented

/-- The state-derivative estimate `xp_j` at collocation node `j`
(lines 617-622): the loop over `r in range(degree + 2)` skips `r = 1`
(the duplicated starting point) and accumulates
`_c[r - 1 if r > 0 else r, j] * states[r]` starting from the scalar 0. -/
def colXp (ctx : ColCtx) (states : List Vec) (j : Nat) : Vec :=
  vsum (((List.range (ctx.degree + 2)).filter (fun r => decide (r ≠ 1))).map
    (fun r => smul (ctx.c (if 0 < r then r - 1 else r) j) (states.getD r [])))

/-- The defect emitted for non-initial collocation node `j`
(lines 613-641): explicit mode forms `xp_j - f_j * h`, implicit mode calls
`implicit_fun` with `xp_j / h`; both evaluate the control via
`COLLOCATION.get_u` at the dimensionless node time `tau j`; any other
defect type raises `ValueError`. -/
def colDefect (ctx : ColCtx) (tspan : ℚ × ℚ) (states : List Vec)
    (controls : Mat) (p : Vec) (a : Mat) (j : Nat) :
    Except IntegratorError Vec :=
  let h := tspan.2
  let t := tspan.1 + ctx.tau j * h
  let xpj := colXp ctx states j
  match ctx.defectsType with
  | .explicit =>
    match colGetU ctx.controlType tspan controls (ctx.tau j) with
    | .error e => .error e
    | .ok uj => .ok (vsub xpj (smul h (ctx.f t h (states.getD (j + 1) []) uj p a)))
  | .implicit =>
    match colGetU ctx.controlType tspan controls (ctx.tau j) with
    | .error e => .error e
    | .ok uj => .ok (ctx.fImpl t h (states.getD (j + 1) []) uj p a (vdivs xpj h))
  | .notApplicable => .error .unknownDefectsType

/-- The defect list accumulated by the loop `for j in range(1, degree + 1)`
of `COLLOCATION.dxdt`, with the first raised exception propagating. -/
def colDefects (ctx : ColCtx) (tspan : ℚ × ℚ) (states : List Vec)
    (controls : Mat) (p : Vec) (a : Mat) :
    List Nat → Except IntegratorError (List Vec)
  | [] => .ok []
  | j :: js =>
    match colDefect ctx tspan states controls p a j with
    | .error e => .error e
    | .ok v =>
      match colDefects ctx tspan states controls p a js with
      | .error e => .error e
      | .ok vs => .ok (v :: vs)

/-- The end-of-interval state of `COLLOCATION.dxdt` (lines 611 and 644):
`states_end = _d[0]*states[1] + Σ_{j=1..degree} _d[j]*states[j+1]`. -/
def colStatesEnd (ctx : ColCtx) (states : List Vec) : Vec :=
  vsum ((List.range (ctx.degree + 1)).map
    (fun j => smul (ctx.d j) (states.getD (j + 1) [])))

/-- Embeds `COLLOCATION.dxdt` (lines 603-649): returns
`(states_end, collocation_states, vertcat(defects))` where the trajectory
output drops `states[0]` unless the duplicate-starting-point flag is set. -/
def colDxdt (ctx : ColCtx) (tspan : ℚ × ℚ) (states : List Vec)
    (controls : Mat) (p : Vec) (a : Mat) :
    Except IntegratorError (Vec × List Vec × Vec) :=
  match colDefects ctx tspan states controls p a (List.range' 1 ctx.degree) with
  | .error e => .error e
  | .ok defects =>
    let collocationStates := if ctx.duplicateStartingPoint then states else states.tail
    .ok (colStatesEnd ctx states, collocationStates, defects.flatten)

/-! ### Collocation-derived implicit Runge-Kutta (`IRK`, lines 652-716) -/

/-- The options dict handed to the CasADi `rootfinder`. -/
structure RootfinderOpts where
  errorOnFail : Bool
  deriving DecidableEq

/-- From `IRK.dxdt` line 706: the rootfinder is created with the option dict setting error_on_fail to False. -/
def irkRootfinderOpts : RootfinderOpts := { errorOnFail := false }

/-- Modelled from the spec: the embedded Newton root-finder is the external
CasADi `rootfinder` (not part of this repository); its iteration outcome is
abstracted as an `Option` (`some` = converged solution, `none` =
non-convergence).  Per the spec, with `error_on_fail` set the failure raises,
and without it the call returns numerically invalid values (e.g. NaN) —
represented by the `invalidValues` payload — instead of raising. -/
def rootfinderEval (opts : RootfinderOpts) (outcome : Option Vec)
    (invalidValues : Vec) : Except IntegratorError Vec :=
  match outcome with
  | some r => .ok r
  | none => if opts.errorOnFail then .error .rootfinderFailed else .ok invalidValues

/-- The slice `v[start : start + len]`. -/
def sliceVec (v : Vec) (start len : Nat) : Vec := (v.drop start).take len

/-- Embeds `IRK.dxdt` (lines 684-716): builds the defects through
`COLLOCATION.dxdt` (exceptions raised there propagate), solves them with the
embedded non-raising root-finder, reconstructs the node states `x r`
(`states[0]` for `r = 0`, slices of the solved vector otherwise), accumulates
the end state with the `_d` weights, and returns
`(xf, horzcat(states[0], xf))`. -/
def irkDxdt (ctx : ColCtx) (tspan : ℚ × ℚ) (states : List Vec)
    (controls : Mat) (p : Vec) (a : Mat) (nx : Nat)
    (outcome : Option Vec) (invalidValues : Vec) :
    Except IntegratorError (Vec × List Vec) :=
  match colDxdt ctx tspan states controls p a with
  | .error e => .error e
  | .ok _ =>
    match rootfinderEval irkRootfinderOpts outcome invalidValues with
    | .error e => .error e
    | .ok xIrkPoints =>
      let x : Nat → Vec := fun r =>
        if r = 0 then states.getD 0 [] else sliceVec xIrkPoints ((r - 1) * nx) nx
      let xf := vsum ((List.range (ctx.degree + 1)).map (fun r => smul (ctx.d r) (x r)))
      .ok (xf, [states.getD 0 [], xf])

/-! ### Helper lemmas -/

theorem vadd_length (x y : Vec) : (vadd x y).length = min x.length y.length := by
  simp [vadd]

theorem vsub_length (x y : Vec) : (vsub x y).length = min x.length y.length := by
  simp [vsub]

theorem smul_length (c : ℚ) (x : Vec) : (smul c x).length = x.length := by
  simp [smul]

theorem foldl_vadd_length (k : Nat) :
    ∀ (xs : List Vec) (acc : Vec), acc.length = k → (∀ v ∈ xs, v.length = k) →
      (xs.foldl vadd acc).length = k := by
  intro xs
  induction xs with
  | nil => intro acc ha _; simpa using ha
  | cons x xs ih =>
      intro acc ha hxs
      simp only [List.foldl_cons]
      exact ih (vadd acc x)
        (by rw [vadd_length, ha, hxs x (by simp)]; omega)
        (fun v hv => hxs v (by simp [hv]))

theorem vsum_length (k : Nat) (l : List Vec) (hne : l ≠ [])
    (hl : ∀ v ∈ l, v.length = k) : (vsum l).length = k := by
  match l, hne with
  | x :: xs, _ =>
      exact foldl_vadd_length k xs x (hl x (by simp)) (fun v hv => hl v (by simp [hv]))

theorem rkXall_length (ctx : IntegratorCtx)
    (next : ℚ → Vec → Except IntegratorError Vec) (t0 h : ℚ) (x0 : Vec) :
    ∀ (n : Nat) (xs : List Vec), rkXall ctx next t0 h x0 n = .ok xs →
      xs.length = n + 1 := by
  intro n
  induction n with
  | zero => intro xs hxs; simp only [rkXall] at hxs; cases hxs; rfl
  | succ n ih =>
      intro xs hxs
      simp only [rkXall] at hxs
      cases h1 : rkXall ctx next t0 h x0 n with
      | error e => simp only [h1] at hxs; cases hxs
      | ok prev =>
          simp only [h1] at hxs
          cases h2 : next (t0 + h * (n : ℚ)) (prev.getLastD []) with
          | error e => simp only [h2] at hxs; cases hxs
          | ok xn =>
              simp only [h2] at hxs
              cases hxs
              simp [ih prev h1]

theorem rkXall_headD (ctx : IntegratorCtx)
    (next : ℚ → Vec → Except IntegratorError Vec) (t0 h : ℚ) (x0 : Vec) :
    ∀ (n : Nat) (xs : List Vec), rkXall ctx next t0 h x0 n = .ok xs →
      xs.headD [] = x0 := by
  intro n
  induction n with
  | zero => intro xs hxs; simp only [rkXall] at hxs; cases hxs; rfl
  | succ n ih =>
      intro xs hxs
      simp only [rkXall] at hxs
      cases h1 : rkXall ctx next t0 h x0 n with
      | error e => simp only [h1] at hxs; cases hxs
      | ok prev =>
          simp only [h1] at hxs
          cases h2 : next (t0 + h * (n : ℚ)) (prev.getLastD []) with
          | error e => simp only [h2] at hxs; cases hxs
          | ok xn =>
              simp only [h2] at hxs
              cases hxs
              have hlen := rkXall_length ctx next t0 h x0 n prev h1
              have hne : prev ≠ [] := by
                intro hcon; rw [hcon] at hlen; simp at hlen
              match prev, hne with
              | p :: ps, _ => simpa using ih (p :: ps) h1

/-! ### C1: trapezoidal finite-element request -/

/-- C1: the claim states that requesting more than one finite element with
the trapezoidal scheme makes construction fail with a fatal configuration
error.  Counterexample: with `number_of_finite_elements = 5` the
construction succeeds and silently uses a single finite element. -/
theorem trapInit_nfe5_counterexample :
    trapInit ⟨5, .constant, .explicit, false⟩ =
      .ok { nStep := 1, controlType := .constant } := rfl

/-- C1 (amended): constructing the trapezoidal integrator never fails on
the finite-element count; whatever number of finite elements the options
request, the integrator silently uses exactly one. -/
theorem trapInit_always_ok_nstep_one (odeOpt : OdeOpt) :
    trapInit odeOpt = .ok { nStep := 1, controlType := odeOpt.controlType } := rfl

/-! ### C3: constant control policies in `Integrator.get_u` -/

/-- C3: the claim states that for every control matrix `u` the constant
policies return column 0 of `u`.  Counterexample: for the two-column matrix
`u = [[1], [2]]`, `get_u` returns the whole matrix `u`, which differs from
the matrix holding only column 0. -/
theorem getU_constant_counterexample :
    integratorGetU .constant (0, 1) [[(1 : ℚ)], [2]] 0 = .ok [[(1 : ℚ)], [2]] ∧
      ([[(1 : ℚ)], [2]] : Mat) ≠ [[(1 : ℚ)]] :=
  ⟨rfl, by decide⟩

/-- C3 (amended): for every control matrix `u` and every query time `t`,
the constant and constant-with-last-node policies return the control matrix
`u` unchanged, independent of `t` (for the single-column matrices these
policies prescribe, this is exactly column 0). -/
theorem getU_constant_returns_u (tspan : ℚ × ℚ) (u : Mat) (t : ℚ) :
    integratorGetU .constant tspan u t = .ok u ∧
      integratorGetU .constantWithLastNode tspan u t = .ok u :=
  ⟨rfl, rfl⟩

/-! ### C10: RK trajectory frame facts -/

/-- C10: for every explicit fixed-step scheme (any stage formula `next`,
any model, including one declaring quaternion blocks), column 0 of the
trajectory output is exactly the supplied initial state — no
renormalization or other modification touches it — and the end-state
output is the last trajectory column. -/
theorem rkDxdt_initial_column_and_xf (ctx : IntegratorCtx)
    (next : ℚ → Vec → Except IntegratorError Vec) (t0 h : ℚ) (x0 : Vec)
    (n : Nat) (xf : Vec) (xall : List Vec)
    (hok : rkDxdt ctx next t0 h x0 n = .ok (xf, xall)) :
    xall.headD [] = x0 ∧ xall.getLastD [] = xf ∧ xall.length = n + 1 := by
  unfold rkDxdt at hok
  cases h1 : rkXall ctx next t0 h x0 n with
  | error e => simp only [h1] at hok; cases hok
  | ok xs =>
      simp only [h1, Except.ok.injEq, Prod.mk.injEq] at hok
      obtain ⟨rfl, rfl⟩ := hok
      exact ⟨rkXall_headD ctx next t0 h x0 n xs h1, rfl,
        rkXall_length ctx next t0 h x0 n xs h1⟩

/-- Witness for C10: a concrete two-step run with a model declaring one
quaternion block; the initial column is returned untouched. -/
theorem rkDxdt_initial_column_and_xf_witness :
    ([[(3 : ℚ)], [1], [1]] : List Vec).headD [] = [(3 : ℚ)] ∧
      ([[(3 : ℚ)], [1], [1]] : List Vec).getLastD [] = [(1 : ℚ)] ∧
      ([[(3 : ℚ)], [1], [1]] : List Vec).length = 2 + 1 :=
  rkDxdt_initial_column_and_xf
    ⟨1, fun v => v.map (fun _ => 1), fun _ _ _ _ _ _ => [], .constant⟩
    (fun _ x => .ok x) 0 1 [(3 : ℚ)] 2 [(1 : ℚ)] [[(3 : ℚ)], [1], [1]] rfl

/-! ### C7: the classical RK4 stage combination -/

/-- C7: for every sub-step, `RK4.next_x` advances the state by the
classical Butcher combination `h/6 * (k1 + 2*k2 + 2*k3 + k4)` with stage
evaluations (of both the dynamics and the control) at times `t0`,
`t0 + h/2`, `t0 + h/2` and `t0 + h`, where the sub-step size `h` is the
interval duration divided by `_n_step`. -/
theorem rk4NextX_butcher (ctx : IntegratorCtx) (tspan : ℚ × ℚ) (nStep : Nat)
    (u : Mat) (p : Vec) (a : Mat) (t0 : ℚ) (xPrev : Vec) (uq : ℚ → Mat)
    (hu : ∀ t, integratorGetU ctx.controlType tspan u t = .ok (uq t)) :
    rkH tspan.2 nStep = tspan.2 / (nStep : ℚ) ∧
      rk4NextX ctx tspan nStep u p a t0 xPrev =
        (let h := rkH tspan.2 nStep
         let k1 := ctx.f t0 h xPrev (uq t0) p a
         let k2 := ctx.f (t0 + h / 2) h (vadd xPrev (smul (h / 2) k1)) (uq (t0 + h / 2)) p a
         let k3 := ctx.f (t0 + h / 2) h (vadd xPrev (smul (h / 2) k2)) (uq (t0 + h / 2)) p a
         let k4 := ctx.f (t0 + h) h (vadd xPrev (smul h k3)) (uq (t0 + h)) p a
         .ok (vadd xPrev (smul (h / 6) (vsum [k1, smul 2 k2, smul 2 k3, k4])))) :=
  ⟨rfl, by simp only [rk4NextX, hu]⟩

/-- Witness for C7: a concrete RK4 step of `x' = 1` over duration 1 with a
single finite element moves `x = 0` to `x = 1`. -/
theorem rk4NextX_butcher_witness :
    rkH (1 : ℚ) 1 = (1 : ℚ) / ((1 : Nat) : ℚ) ∧
      rk4NextX ⟨0, id, fun _ _ _ _ _ _ => [1], .constant⟩ (0, 1) 1
          [[(5 : ℚ)]] [] [] 0 [(0 : ℚ)] = .ok [(1 : ℚ)] := by
  have h := rk4NextX_butcher ⟨0, id, fun _ _ _ _ _ _ => [1], .constant⟩ (0, 1) 1
    [[(5 : ℚ)]] [] [] 0 [(0 : ℚ)] (fun _ => [[(5 : ℚ)]]) (fun _ => rfl)
  refine ⟨h.1, h.2.trans ?_⟩
  simp [rkH, vadd, smul, vsum, col]
  norm_num

/-! ### C5: the trapezoidal end state is recomputed -/

/-- C5: for a model with no quaternion blocks, the trapezoidal scheme's
end-state output equals
`x_start + duration/2 * (f(start inputs) + f(end inputs))` — the dynamics
evaluated at the supplied start state/control/algebraic state and at the
supplied end state/control/algebraic state — and this recomputed value
(not the externally supplied end state `states[:, 1]`) is what the "xf"
output and the second trajectory column expose. -/
theorem trapDxdt_recomputes_end_state (ctx : IntegratorCtx) (tspan : ℚ × ℚ)
    (states controls : Mat) (p : Vec) (a : Mat)
    (h0 : ctx.nbQuaternions = 0) :
    (trapDxdt ctx tspan states controls p a).1 =
      vadd (col states 0)
        (smul (tspan.2 / 2)
          (vadd
            (ctx.f tspan.1 tspan.2 (col states 0) [col controls 0] p
              (if a = ([] : Mat) then a else [col a 0]))
            (ctx.f (tspan.1 + tspan.2) tspan.2 (col states 1) [col controls 1] p
              (if a = ([] : Mat) then a else [col a 1])))) ∧
      (trapDxdt ctx tspan states controls p a).2 =
        [col states 0, (trapDxdt ctx tspan states controls p a).1] := by
  constructor
  · simp [trapDxdt, trapNextX, maybeNormalize, h0]
  · simp [trapDxdt]

/-- Witness for C5: with dynamics `f(t, x) = t + x`, duration 2, start
state 1 and supplied end state 5, the recomputed end state is
`1 + (2/2)*((0+1) + (2+5)) = 9`. -/
theorem trapDxdt_recomputes_end_state_witness :
    (trapDxdt ⟨0, id, fun t _ x _ _ _ => [t + x.headD 0], .constant⟩ (0, 2)
        [[(1 : ℚ)], [5]] [[(0 : ℚ)], [0]] [] []).1 = [(9 : ℚ)] :=
  ((trapDxdt_recomputes_end_state ⟨0, id, fun t _ x _ _ _ => [t + x.headD 0], .constant⟩
      (0, 2) [[(1 : ℚ)], [5]] [[(0 : ℚ)], [0]] [] [] rfl).1).trans
    (by simp [col, vadd, smul]; norm_num)

/-! ### C4: quaternion renormalization after every sub-step -/

/-- C4: for a model declaring at least one quaternion block, every explicit
fixed-step scheme (any stage formula `next`) passes the state through the
model's quaternion renormalization after every one of its `_n_step`
sub-steps — so any property `P` guaranteed by the renormalization routine
(such as unit-norm quaternion blocks) holds of every trajectory column
produced by a sub-step — and the trapezoidal scheme applies the
renormalization to its computed end state. -/
theorem quaternions_renormalized_every_substep (ctx : IntegratorCtx)
    (next : ℚ → Vec → Except IntegratorError Vec) (t0 h : ℚ) (x0 : Vec)
    (n : Nat) (P : Vec → Prop) (hq : 0 < ctx.nbQuaternions)
    (hP : ∀ y, P (ctx.normalize y)) :
    (∀ xall, rkXall ctx next t0 h x0 n = .ok xall →
        ∀ i, 1 ≤ i → i ≤ n → P (xall.getD i [])) ∧
      (∀ (tspan : ℚ × ℚ) (states controls : Mat) (p : Vec) (a : Mat),
        P (trapDxdt ctx tspan states controls p a).1) := by
  constructor
  · induction n with
    | zero => intro xall _ i h1 h2; omega
    | succ n ih =>
        intro xall hxall i h1 h2
        simp only [rkXall] at hxall
        cases hprev : rkXall ctx next t0 h x0 n with
        | error e => simp only [hprev] at hxall; cases hxall
        | ok prev =>
            simp only [hprev] at hxall
            cases hnext : next (t0 + h * (n : ℚ)) (prev.getLastD []) with
            | error e => simp only [hnext] at hxall; cases hxall
            | ok xn =>
                simp only [hnext] at hxall
                cases hxall
                have hlen := rkXall_length ctx next t0 h x0 n prev hprev
                rcases Nat.lt_or_ge i (n + 1) with hi | hi
                · have : (prev ++ [maybeNormalize ctx xn]).getD i [] = prev.getD i [] := by
                    simp [List.getD_eq_getElem?_getD, List.getElem?_append, hlen, hi]
                  rw [this]
                  exact ih prev hprev i h1 (by omega)
                · have hieq : i = n + 1 := by omega
                  subst hieq
                  have : (prev ++ [maybeNormalize ctx xn]).getD (n + 1) [] =
                      maybeNormalize ctx xn := by
                    simp [List.getD_eq_getElem?_getD, List.getElem?_append, hlen]
                  rw [this]
                  unfold maybeNormalize
                  rw [if_pos hq]
                  exact hP xn
  · intro tspan states controls p a
    simp only [trapDxdt, maybeNormalize, if_pos hq]
    exact hP _

/-- Witness for C4: a model with one quaternion block whose renormalization
maps every state to `[1]`; after one explicit sub-step the trajectory
column is renormalized, and the trapezoidal end state is renormalized. -/
theorem quaternions_renormalized_every_substep_witness :
    ([[(0 : ℚ)], [1]] : List Vec).getD 1 [] = [(1 : ℚ)] ∧
      (trapDxdt ⟨1, fun _ => [1], fun _ _ _ _ _ _ => [], .constant⟩ (0, 1)
          [[(2 : ℚ)], [3]] [[(0 : ℚ)], [0]] [] []).1 = [(1 : ℚ)] := by
  have h := quaternions_renormalized_every_substep
    ⟨1, fun _ => [1], fun _ _ _ _ _ _ => [], .constant⟩
    (fun _ _ => .ok [7]) 0 1 [(0 : ℚ)] 1 (fun v => v = [(1 : ℚ)])
    (by decide) (fun _ => rfl)
  exact ⟨h.1 [[(0 : ℚ)], [1]] rfl 1 (by decide) (by decide),
    h.2 (0, 1) [[(2 : ℚ)], [3]] [[(0 : ℚ)], [0]] [] []⟩

/-! ### C2: shape contracts -/

theorem colDxdt_ok_components (ctx : ColCtx) (tspan : ℚ × ℚ)
    (states : List Vec) (controls : Mat) (p : Vec) (a : Mat)
    (xf : Vec) (cs : List Vec) (df : Vec)
    (hok : colDxdt ctx tspan states controls p a = .ok (xf, cs, df)) :
    xf = colStatesEnd ctx states ∧
      cs = (if ctx.duplicateStartingPoint then states else states.tail) := by
  unfold colDxdt at hok
  cases h1 : colDefects ctx tspan states controls p a (List.range' 1 ctx.degree) with
  | error e => simp only [h1] at hok; cases hok
  | ok defects =>
      simp only [h1, Except.ok.injEq, Prod.mk.injEq] at hok
      exact ⟨hok.1.symm, hok.2.1.symm⟩

/-- A concrete degree-3 collocation context with state dimension 4 (the
coefficient values are irrelevant to the output shapes). -/
def colCtxDeg3 (dup : Bool) : ColCtx :=
  ⟨3, fun _ _ => 0, fun _ => 0, fun _ => 0, .constant, .explicit, dup,
    fun _ _ _ _ _ _ => [0, 0, 0, 0], fun _ _ _ _ _ _ _ => []⟩

/-- Five dimension-4 node-state columns for a degree-3 collocation interval. -/
def statesDeg3 : List Vec :=
  [[0, 0, 0, 0], [0, 0, 0, 0], [0, 0, 0, 0], [0, 0, 0, 0], [0, 0, 0, 0]]

/-- Projects the column count of the trajectory output of a collocation
derivation, when it succeeded. -/
def xallColumnsOf (r : Except IntegratorError (Vec × List Vec × Vec)) : Option Nat :=
  match r with
  | .ok out => some out.2.1.length
  | .error _ => none

/-- C2: the claim states that for Collocation with degree 3 and state
dimension 4 the trajectory output has 5 columns for every value of the
duplicate-starting-point flag.  Counterexample: with the flag unset, the
trajectory output produced by `COLLOCATION.dxdt` has 4 columns (while
`shape_xall` still reports 5). -/
theorem collocation_xall_columns_counterexample :
    xallColumnsOf (colDxdt (colCtxDeg3 false) (0, 1) statesDeg3 [[0]] [] []) = some 4 ∧
      colShapeXall false statesDeg3 3 = [4, 5] ∧ (4 : Nat) ≠ 5 := by
  refine ⟨?_, by simp [colShapeXall, colXSymModified, matRows, statesDeg3], by decide⟩
  simp [xallColumnsOf, colDxdt, colDefects, colDefect, colXp, colGetU,
    integratorGetU, colCtxDeg3, statesDeg3, List.range']

/-- C2 (amended): for an explicit fixed-step scheme with `_n_step = 5` and
state dimension 4, `shape_xf` is `[4, 1]` and `shape_xall` is `[4, 6]`
(matching the `n_step + 1` trajectory columns); for the Collocation scheme
with degree 3 and state dimension 4, `shape_xf` is `[4, 4]` for every value
of the duplicate-starting-point flag, but the trajectory output has 5
columns only when the flag is set and 4 columns when it is not. -/
theorem shape_contracts (xsym : List Vec) (dup : Bool) (ctx : ColCtx)
    (tspan : ℚ × ℚ) (states : List Vec) (controls : Mat) (p : Vec) (a : Mat)
    (xf : Vec) (cs : List Vec) (df : Vec)
    (hx5 : xsym.length = 5) (hx4 : ∀ v ∈ xsym, v.length = 4)
    (_hdeg : ctx.degree = 3) (hs5 : states.length = 5)
    (hok : colDxdt ctx tspan states controls p a = .ok (xf, cs, df)) :
    (rkShapeXf 4 = [4, 1] ∧ rkShapeXall 4 5 = [4, 6]) ∧
      colShapeXf dup xsym 3 = [4, 4] ∧
      cs.length = (if ctx.duplicateStartingPoint then 5 else 4) := by
  refine ⟨⟨rfl, rfl⟩, ?_, ?_⟩
  · cases xsym with
    | nil => simp at hx5
    | cons v0 rest =>
        cases rest with
        | nil => simp at hx5
        | cons v1 rest2 =>
            cases dup with
            | true =>
                simp only [colShapeXf, colXSymModified, matRows, if_pos]
                simp [hx4 v0 (by simp)]
            | false =>
                simp only [colShapeXf, colXSymModified, matRows]
                simp [hx4 v1 (by simp)]
  · have h2 := (colDxdt_ok_components ctx tspan states controls p a xf cs df hok).2
    cases hdup : ctx.duplicateStartingPoint with
    | true => rw [h2, if_pos hdup, hs5, if_pos rfl]
    | false =>
        rw [h2, if_neg (by simp [hdup]), if_neg (by simp)]
        simp [hs5]

/-- Witness for C2: the shape facts at the concrete degree-3,
state-dimension-4 instance with the duplicate-starting-point flag unset. -/
theorem shape_contracts_witness :
    (rkShapeXf 4 = [4, 1] ∧ rkShapeXall 4 5 = [4, 6]) ∧
      colShapeXf false statesDeg3 3 = [4, 4] ∧
      statesDeg3.tail.length = (if (colCtxDeg3 false).duplicateStartingPoint then 5 else 4) :=
  shape_contracts statesDeg3 false (colCtxDeg3 false) (0, 1) statesDeg3 [[0]] [] []
    (colStatesEnd (colCtxDeg3 false) statesDeg3) statesDeg3.tail
    (List.replicate 12 0)
    (by decide) (by decide) rfl (by decide)
    (by simp [colDxdt, colDefects, colDefect, colXp, colGetU, integratorGetU,
      colStatesEnd, colCtxDeg3, statesDeg3, List.range', List.range_succ,
      vsum, vadd, vsub, smul, List.replicate])

/-! ### C6: explicit collocation defects -/

/-- The state attached to collocation node `k` (`k = 0 .. degree`): the
interval-start symbol `states[0]` for node 0, and `states[k+1]` for the
internal/end nodes (recall `states[1]` duplicates the starting point and is
skipped by the derivative estimate). -/
def colNodeState (states : List Vec) (k : Nat) : Vec :=
  if k = 0 then states.getD 0 [] else states.getD (k + 1) []

theorem colXp_index_lists (cw : Nat → ℚ) (states : List Vec) :
    ∀ d : Nat,
      ((List.range (d + 2)).filter (fun r => decide (r ≠ 1))).map
          (fun r => smul (cw (if 0 < r then r - 1 else r)) (states.getD r [])) =
        (List.range (d + 1)).map (fun k => smul (cw k) (colNodeState states k)) := by
  intro d
  induction d with
  | zero => simp [List.range_succ, colNodeState]
  | succ d ih =>
      have h2 : d + 1 + 2 = (d + 2) + 1 := rfl
      rw [h2, List.range_succ, List.filter_append, List.map_append, ih]
      conv_rhs => rw [List.range_succ, List.map_append]
      simp [colNodeState]

/-- Restating `colXp` as the claim does: a `c`-weighted sum over all
`degree + 1` node states. -/
theorem colXp_eq_node_sum (ctx : ColCtx) (states : List Vec) (j : Nat) :
    colXp ctx states j =
      vsum ((List.range (ctx.degree + 1)).map
        (fun k => smul (ctx.c k j) (colNodeState states k))) := by
  unfold colXp
  rw [colXp_index_lists (fun k => ctx.c k j) states ctx.degree]

theorem getD_length_of_mem (l : List Vec) (nx : Nat)
    (h : ∀ v ∈ l, v.length = nx) (i : Nat) (hi : i < l.length) :
    (l.getD i []).length = nx := by
  rw [List.getD_eq_getElem l [] hi]
  exact h _ (List.getElem_mem hi)

theorem flatten_length_const (nx : Nat) :
    ∀ l : List Vec, (∀ v ∈ l, v.length = nx) → l.flatten.length = l.length * nx := by
  intro l
  induction l with
  | nil => simp
  | cons v t ih =>
      intro h
      simp only [List.flatten_cons, List.length_append, List.length_cons]
      rw [h v (by simp), ih (fun w hw => h w (by simp [hw]))]
      ring

theorem colXp_length (ctx : ColCtx) (states : List Vec) (j nx : Nat)
    (hs : ∀ v ∈ states, v.length = nx) (hslen : states.length = ctx.degree + 2) :
    (colXp ctx states j).length = nx := by
  rw [colXp_eq_node_sum]
  apply vsum_length
  · simp
  · intro v hv
    simp only [List.mem_map, List.mem_range] at hv
    obtain ⟨k, hk, rfl⟩ := hv
    rw [smul_length]
    unfold colNodeState
    by_cases hk0 : k = 0
    · rw [if_pos hk0]
      exact getD_length_of_mem states nx hs 0 (by omega)
    · rw [if_neg hk0]
      exact getD_length_of_mem states nx hs (k + 1) (by omega)

theorem colDefect_explicit_eq (ctx : ColCtx) (tspan : ℚ × ℚ)
    (states : List Vec) (controls : Mat) (p : Vec) (a : Mat) (j : Nat)
    (hexp : ctx.defectsType = .explicit)
    (hct : ctx.controlType = .constant ∨ ctx.controlType = .constantWithLastNode) :
    colDefect ctx tspan states controls p a j =
      .ok (vsub (colXp ctx states j)
        (smul tspan.2
          (ctx.f (tspan.1 + ctx.tau j * tspan.2) tspan.2
            (states.getD (j + 1) []) controls p a))) := by
  rcases hct with h | h <;>
    simp only [colDefect, hexp, colGetU, h, integratorGetU]

theorem colDefects_ok_of_all_ok (ctx : ColCtx) (tspan : ℚ × ℚ)
    (states : List Vec) (controls : Mat) (p : Vec) (a : Mat) :
    ∀ js : List Nat,
      (∀ j ∈ js, ∃ v, colDefect ctx tspan states controls p a j = .ok v) →
      ∃ defects, colDefects ctx tspan states controls p a js = .ok defects ∧
        defects.length = js.length ∧
        ∀ i, i < js.length →
          colDefect ctx tspan states controls p a (js.getD i 0) =
            .ok (defects.getD i []) := by
  intro js
  induction js with
  | nil => intro _; exact ⟨[], rfl, rfl, fun i hi => by simp at hi⟩
  | cons j js ih =>
      intro hall
      obtain ⟨v, hv⟩ := hall j (by simp)
      obtain ⟨defects, hd, hlen, hidx⟩ := ih (fun j hj => hall j (by simp [hj]))
      refine ⟨v :: defects, ?_, by simp [hlen], ?_⟩
      · simp only [colDefects, hv, hd]
      · intro i hi
        cases i with
        | zero => simpa using hv
        | succ i =>
            simp only [List.getD_cons_succ]
            exact hidx i (by simpa using hi)

/-- C6: for the Collocation scheme in explicit defect mode (under the
constant control policies it accepts), the defect emitted for every
non-initial collocation node `j = 1..degree` equals the Lagrange-polynomial
derivative estimate at node `j` — the `c`-weighted sum of all node states —
minus the duration times the dynamics evaluated at node `j`'s time, state
and control; and the concatenated defect vector has length
`degree * state_dim`. -/
theorem collocation_explicit_defects (ctx : ColCtx) (tspan : ℚ × ℚ)
    (states : List Vec) (controls : Mat) (p : Vec) (a : Mat) (nx : Nat)
    (hexp : ctx.defectsType = .explicit)
    (hct : ctx.controlType = .constant ∨ ctx.controlType = .constantWithLastNode)
    (hs : ∀ v ∈ states, v.length = nx)
    (hslen : states.length = ctx.degree + 2)
    (hf : ∀ t h x u, (ctx.f t h x u p a).length = nx) :
    (∀ j, 1 ≤ j → j ≤ ctx.degree →
      colDefect ctx tspan states controls p a j =
        .ok (vsub
          (vsum ((List.range (ctx.degree + 1)).map
            (fun k => smul (ctx.c k j) (colNodeState states k))))
          (smul tspan.2
            (ctx.f (tspan.1 + ctx.tau j * tspan.2) tspan.2
              (states.getD (j + 1) []) controls p a)))) ∧
      (∀ out : Vec × List Vec × Vec,
        colDxdt ctx tspan states controls p a = .ok out →
          out.2.2.length = ctx.degree * nx) := by
  have hdef : ∀ j, colDefect ctx tspan states controls p a j =
      .ok (vsub (colXp ctx states j)
        (smul tspan.2 (ctx.f (tspan.1 + ctx.tau j * tspan.2) tspan.2
          (states.getD (j + 1) []) controls p a))) :=
    fun j => colDefect_explicit_eq ctx tspan states controls p a j hexp hct
  have hdeflen : ∀ j, ∀ v, colDefect ctx tspan states controls p a j = .ok v →
      v.length = nx := by
    intro j v hv
    rw [hdef j] at hv
    cases hv
    rw [vsub_length, colXp_length ctx states j nx hs hslen, smul_length, hf]
    omega
  constructor
  · intro j _ _
    rw [hdef j, colXp_eq_node_sum]
  · intro out hout
    obtain ⟨defects, hd, hlen, _⟩ :=
      colDefects_ok_of_all_ok ctx tspan states controls p a
        (List.range' 1 ctx.degree) (fun j _ => ⟨_, hdef j⟩)
    unfold colDxdt at hout
    simp only [hd, Except.ok.injEq] at hout
    rw [← hout]
    simp only
    rw [flatten_length_const nx defects ?_, hlen, List.length_range']
    intro v hv
    obtain ⟨i, hi, hvi⟩ := List.getElem_of_mem hv
    have h1 := hdeflen ((List.range' 1 ctx.degree).getD i 0) (defects.getD i [])
    rw [List.getD_eq_getElem defects [] hi, hvi] at h1
    apply h1
    obtain ⟨d2, hd2, hl2, hidx2⟩ :=
      colDefects_ok_of_all_ok ctx tspan states controls p a
        (List.range' 1 ctx.degree) (fun j _ => ⟨_, hdef j⟩)
    have hd2e : d2 = defects := by
      rw [hd] at hd2; cases hd2; rfl
    subst hd2e
    have := hidx2 i (by omega)
    rw [List.getD_eq_getElem d2 [] hi, hvi] at this
    exact this

/-- Witness for C6: at the concrete degree-3, dimension-4 instance the
concatenated defect vector has length `3 * 4 = 12`. -/
theorem collocation_explicit_defects_witness :
    (List.replicate 12 (0 : ℚ)).length = (colCtxDeg3 false).degree * 4 :=
  (collocation_explicit_defects (colCtxDeg3 false) (0, 1) statesDeg3 [[0]] [] [] 4
      rfl (Or.inl rfl) (by decide) (by decide) (fun _ _ _ _ => rfl)).2
    (colStatesEnd (colCtxDeg3 false) statesDeg3, statesDeg3.tail, List.replicate 12 0)
    (by simp [colDxdt, colDefects, colDefect, colXp, colGetU, integratorGetU,
      colStatesEnd, colCtxDeg3, statesDeg3, List.range', List.range_succ,
      vsum, vadd, vsub, smul, List.replicate])

/-! ### C9: collocation-family schemes reject linear-continuous controls -/

/-- C9: for both collocation-family schemes (Collocation and IRK),
requesting the linear-continuous control policy makes the expression
derivation fail at build time with the unsupported-control-policy error
(the `NotImplementedError` of `COLLOCATION.get_u`, which the spec names
`UnsupportedControlPolicy`); more generally only the constant and
constant-with-last-node policies are accepted by `COLLOCATION.get_u`. -/
theorem collocation_rejects_linear_continuous (ctx : ColCtx) (tspan : ℚ × ℚ)
    (states : List Vec) (controls : Mat) (p : Vec) (a : Mat) (nx : Nat)
    (outcome : Option Vec) (invalid : Vec)
    (hlin : ctx.controlType = .linearContinuous)
    (hdt : ctx.defectsType = .explicit ∨ ctx.defectsType = .implicit)
    (hdeg : 1 ≤ ctx.degree) :
    colDxdt ctx tspan states controls p a =
        .error .collocationControlTypeNotImplemented ∧
      irkDxdt ctx tspan states controls p a nx outcome invalid =
        .error .collocationControlTypeNotImplemented ∧
      (∀ (ct : ControlType) (u : Mat) (t : ℚ),
        ct ≠ .constant → ct ≠ .constantWithLastNode →
          colGetU ct tspan u t = .error .collocationControlTypeNotImplemented) := by
  have hgu : ∀ (u : Mat) (t : ℚ),
      colGetU ctx.controlType tspan u t =
        .error .collocationControlTypeNotImplemented := by
    intro u t; rw [hlin]; rfl
  have hdefect : colDefect ctx tspan states controls p a 1 =
      .error .collocationControlTypeNotImplemented := by
    rcases hdt with h | h <;> simp only [colDefect, h, hgu]
  have hdefects : colDefects ctx tspan states controls p a
      (List.range' 1 ctx.degree) = .error .collocationControlTypeNotImplemented := by
    obtain ⟨m, hm⟩ := Nat.exists_eq_add_of_le hdeg
    rw [hm, Nat.add_comm 1 m, List.range'_succ]
    simp only [colDefects, hdefect]
  have hcol : colDxdt ctx tspan states controls p a =
      .error .collocationControlTypeNotImplemented := by
    unfold colDxdt; simp only [hdefects]
  refine ⟨hcol, ?_, ?_⟩
  · unfold irkDxdt; simp only [hcol]
  · intro ct u t h1 h2
    cases ct with
    | constant => exact absurd rfl h1
    | constantWithLastNode => exact absurd rfl h2
    | linearContinuous => rfl
    | noControl => rfl

/-- Witness for C9: a concrete degree-1 collocation context with the
linear-continuous policy; both the Collocation and the IRK derivations
fail with the unsupported-control-policy error. -/
theorem collocation_rejects_linear_continuous_witness :
    colDxdt ⟨1, fun _ _ => 0, fun _ => 0, fun _ => 0, .linearContinuous,
          .explicit, false, fun _ _ _ _ _ _ => [], fun _ _ _ _ _ _ _ => []⟩
        (0, 1) [[], [], []] [[0], [0]] [] [] =
      .error .collocationControlTypeNotImplemented ∧
    irkDxdt ⟨1, fun _ _ => 0, fun _ => 0, fun _ => 0, .linearContinuous,
          .explicit, false, fun _ _ _ _ _ _ => [], fun _ _ _ _ _ _ _ => []⟩
        (0, 1) [[], [], []] [[0], [0]] [] [] 0 none [] =
      .error .collocationControlTypeNotImplemented :=
  ⟨(collocation_rejects_linear_continuous _ (0, 1) [[], [], []] [[0], [0]] [] [] 0
      none [] rfl (Or.inl rfl) (by decide)).1,
    (collocation_rejects_linear_continuous _ (0, 1) [[], [], []] [[0], [0]] [] [] 0
      none [] rfl (Or.inl rfl) (by decide)).2.1⟩

/-! ### C8: the IRK root-finder never raises -/

/-- Whether an integrator evaluation completed without raising. -/
def exceptIsOk {α : Type} (r : Except IntegratorError α) : Bool :=
  match r with
  | .ok _ => true
  | .error _ => false

theorem colDefect_ok_of_supported (ctx : ColCtx) (tspan : ℚ × ℚ)
    (states : List Vec) (controls : Mat) (p : Vec) (a : Mat) (j : Nat)
    (hct : ctx.controlType = .constant ∨ ctx.controlType = .constantWithLastNode)
    (hdt : ctx.defectsType = .explicit ∨ ctx.defectsType = .implicit) :
    ∃ v, colDefect ctx tspan states controls p a j = .ok v := by
  rcases hdt with h | h <;> rcases hct with hc | hc <;>
    simp only [colDefect, h, colGetU, hc, integratorGetU] <;>
    exact ⟨_, rfl⟩

/-- C8: the IRK scheme configures its embedded Newton root-finder with
`error_on_fail = False`; evaluating the IRK derivation never raises for
any root-finder outcome (including non-convergence), and a failed
root-find surfaces only as the numerically invalid values returned by the
non-raising root-finder. -/
theorem irk_never_raises (ctx : ColCtx) (tspan : ℚ × ℚ)
    (states : List Vec) (controls : Mat) (p : Vec) (a : Mat) (nx : Nat)
    (outcome : Option Vec) (invalid : Vec)
    (hct : ctx.controlType = .constant ∨ ctx.controlType = .constantWithLastNode)
    (hdt : ctx.defectsType = .explicit ∨ ctx.defectsType = .implicit) :
    irkRootfinderOpts.errorOnFail = false ∧
      exceptIsOk (irkDxdt ctx tspan states controls p a nx outcome invalid) = true ∧
      rootfinderEval irkRootfinderOpts none invalid = .ok invalid := by
  refine ⟨rfl, ?_, rfl⟩
  obtain ⟨defects, hd, _, _⟩ :=
    colDefects_ok_of_all_ok ctx tspan states controls p a (List.range' 1 ctx.degree)
      (fun j _ => colDefect_ok_of_supported ctx tspan states controls p a j hct hdt)
  unfold irkDxdt colDxdt
  simp only [hd]
  cases outcome with
  | some r => rfl
  | none => rfl

/-- Witness for C8: a concrete IRK evaluation whose root-finder does not
converge still returns a value (the invalid payload) instead of raising. -/
theorem irk_never_raises_witness :
    irkRootfinderOpts.errorOnFail = false ∧
      exceptIsOk (irkDxdt (colCtxDeg3 false) (0, 1) statesDeg3 [[0]] [] [] 4
          none [1, 2]) = true ∧
      rootfinderEval irkRootfinderOpts none [1, 2] = .ok [1, 2] :=
  irk_never_raises (colCtxDeg3 false) (0, 1) statesDeg3 [[0]] [] [] 4 none [1, 2]
    (Or.inl rfl) (Or.inl rfl)

end Bioptim
